import Mathlib

/-!
Verification development for the media conversion cache of the
wdio-camera-service repository.

The TypeScript source (`src/services/format-converter.ts`,
`src/services/camera.service.ts` / ffmpeg checker, `src/services/errors.ts`)
is shallowly embedded here:

* strings are modelled as lists of characters (`Str`);
* the filesystem is an explicit association list from absolute paths to
  file contents (lists of bytes);
* the external encoder subprocess and the SHA-256 primitive are parameters
  (a function from the command string to its behaviour, and a function from
  a byte list to a hex digest string);
* stateful operations (`convert`) return the new filesystem together with
  the list of subprocess commands that were executed and the outcome.

Node library helpers (`path.extname`, `path.resolve`, `path.join`,
`path.dirname`, `path.basename`, `String.prototype.toLowerCase`,
`Number.prototype.toString`) are modelled by the character-list functions
below, faithful to their documented behaviour on the inputs this program
feeds them (POSIX separators).
-/

/-- Characters of a JavaScript string. -/
abbrev Str := List Char

/-- Convert a Lean string literal to the character-list model. -/
def str (s : String) : Str := s.toList

/-- Take characters until (excluding) the first occurrence of `c`;
used to model scanning for the last path separator / extension dot. -/
def takeUntil (c : Char) : Str → Str
  | [] => []
  | x :: xs => if x = c then [] else x :: takeUntil c xs

/-- Characters after the last occurrence of `c` (the whole string when `c`
does not occur). -/
def lastComp (c : Char) (s : Str) : Str :=
  (takeUntil c s.reverse).reverse

/-- Characters strictly before the last occurrence of `c`. -/
def dropAfterLast (c : Char) (s : Str) : Str :=
  (s.reverse.drop (takeUntil c s.reverse).length.succ).reverse

/-- Model of Node `path.extname` (POSIX): the suffix of the basename from
its last dot, empty when the basename has no dot or only a leading dot. -/
def extname (p : Str) : Str :=
  let b := lastComp '/' p
  let after := takeUntil '.' b.reverse
  if after.length = b.length then []
  else if after.length + 1 = b.length then []
  else '.' :: after.reverse

/-- Model of Node `path.basename(p)` (POSIX, no trailing separator). -/
def basenameOf (p : Str) : Str := lastComp '/' p

/-- Model of Node `path.basename(p, ext)`: the basename with the suffix
`ext` removed when it is a proper suffix. -/
def basenameExt (p ext : Str) : Str :=
  let b := basenameOf p
  if b ≠ ext ∧ ext.isSuffixOf b then b.take (b.length - ext.length) else b

/-- Model of Node `path.dirname` (POSIX). -/
def dirname (p : Str) : Str :=
  if '/' ∈ p then
    let pre := dropAfterLast '/' p
    if pre = [] then ['/'] else pre
  else str "."

/-- Model of Node `path.join(a, b)` on normalized segments. -/
def pathJoin (a b : Str) : Str := a ++ '/' :: b

/-- Model of Node `path.resolve(cwd, p)` on normalized paths: `p` itself
when absolute, otherwise `cwd` extended by `p`. -/
def pathResolve (cwd p : Str) : Str :=
  match p with
  | '/' :: _ => p
  | _ => cwd ++ '/' :: p

/-- ASCII lower-casing of one character, modelling the effect of
JavaScript `toLowerCase` on extension characters. -/
def lowerChar (c : Char) : Char :=
  match c with
  | 'A' => 'a' | 'B' => 'b' | 'C' => 'c' | 'D' => 'd' | 'E' => 'e'
  | 'F' => 'f' | 'G' => 'g' | 'H' => 'h' | 'I' => 'i' | 'J' => 'j'
  | 'K' => 'k' | 'L' => 'l' | 'M' => 'm' | 'N' => 'n' | 'O' => 'o'
  | 'P' => 'p' | 'Q' => 'q' | 'R' => 'r' | 'S' => 's' | 'T' => 't'
  | 'U' => 'u' | 'V' => 'v' | 'W' => 'w' | 'X' => 'x' | 'Y' => 'y'
  | 'Z' => 'z'
  | other => other

/-- Model of JavaScript `String.prototype.toLowerCase`. -/
def lowerStr (s : Str) : Str := s.map lowerChar

/-- First-match association-list lookup over string keys, modelling a
JavaScript record indexed by strings. -/
def lookupStr {α : Type} : List (Str × α) → Str → Option α
  | [], _ => none
  | (k, v) :: rest, key => if k = key then some v else lookupStr rest key

/-- Format classes of `format-converter.ts` (`FormatType`). -/
inductive FormatType where
  | mjpeg
  | y4m
  | video
  | image
  | unknown
deriving DecidableEq, Repr

/-- Extension table `EXTENSION_TO_FORMAT` of `format-converter.ts`. -/
def EXTENSION_TO_FORMAT : List (Str × FormatType) :=
  [ (str ".mjpeg", .mjpeg)
  , (str ".y4m", .y4m)
  , (str ".mp4", .video)
  , (str ".webm", .video)
  , (str ".avi", .video)
  , (str ".mov", .video)
  , (str ".gif", .video)
  , (str ".png", .image)
  , (str ".jpg", .image)
  , (str ".jpeg", .image)
  , (str ".bmp", .image) ]

/-- `detectFormat` of `format-converter.ts`: classify a file by its
lower-cased extension, defaulting to `unknown`. -/
def detectFormat (filePath : Str) : FormatType :=
  let ext := lowerStr (extname filePath)
  (lookupStr EXTENSION_TO_FORMAT ext).getD .unknown

/-- `requiresConversion` of `format-converter.ts`: true exactly for the
`video` and `image` classes. -/
def requiresConversion (filePath : Str) : Bool :=
  match detectFormat filePath with
  | .video => true
  | .image => true
  | _ => false

/-- Decimal digits of `n`, least significant first, with explicit fuel so
that the definition is structurally recursive and kernel-computable. -/
def decDigitsAux : Nat → Nat → List Nat
  | 0, _ => []
  | f + 1, n => if n = 0 then [] else n % 10 :: decDigitsAux f (n / 10)

/-- Value of a least-significant-first digit list; inverse of
`decDigitsAux` used to prove injectivity of the decimal rendering. -/
def digitsVal : List Nat → Nat
  | [] => 0
  | d :: ds => d + 10 * digitsVal ds

/-- Model of JavaScript `Number.prototype.toString()` applied to a file
size: the ASCII bytes of the decimal rendering, most significant first. -/
def natDecimal (n : Nat) : List Nat :=
  if n = 0 then [48] else ((decDigitsAux n n).reverse).map (fun d => d + 48)

/-- Byte stream fed to the SHA-256 hash by `computeFileHash`: the first
64 KiB of the file (or the whole file if smaller) followed by the ASCII
decimal rendering of the exact byte length
(`hash.update(buffer); hash.update(stats.size.toString())`). -/
def hashInput (content : List Nat) : List Nat :=
  content.take 65536 ++ natDecimal content.length

/-- `computeFileHash` of `format-converter.ts`, with the filesystem read
replaced by the file's byte content and SHA-256 abstracted as the
parameter `sha` (byte stream to hex digest string). -/
def computeFileHash (sha : List Nat → Str) (content : List Nat) : Str :=
  sha (hashInput content)

/-- Explicit filesystem state: an association list from absolute paths to
file contents; the first binding for a path wins. -/
abbrev FS := List (Str × List Nat)

/-- Content of the file at `p`, or `none` when no file exists there
(models `fs.existsSync` / reads). -/
def fsLookup : FS → Str → Option (List Nat)
  | [], _ => none
  | (q, c) :: rest, p => if q = p then some c else fsLookup rest p

/-- Create or overwrite the file at `p` (models a write). -/
def fsWrite (fs : FS) (p : Str) (c : List Nat) : FS := (p, c) :: fs

/-- Delete the file at `p` (models `fs.unlinkSync`). -/
def fsErase : FS → Str → FS
  | [], _ => []
  | (q, c) :: rest, p => if q = p then fsErase rest p else (q, c) :: fsErase rest p

/-- Model of `fs.renameSync src dst`: move the file at `src` to `dst`
(identity when `src` is absent; the code only renames files it created). -/
def fsRename (fs : FS) (src dst : Str) : FS :=
  match fsLookup fs src with
  | some c => fsWrite (fsErase fs src) dst c
  | none => fs

/-- The two output containers accepted by `FormatConverterOptions`. -/
inductive OutputFormat where
  | mjpeg
  | y4m
deriving DecidableEq, Repr

/-- String value of the output format (`'mjpeg' | 'y4m'`). -/
def OutputFormat.name : OutputFormat → Str
  | .mjpeg => str "mjpeg"
  | .y4m => str "y4m"

/-- `FormatConverterOptions` of `format-converter.ts` (optional fields are
`Option`s, mirroring the `?:` fields). -/
structure FormatConverterOptions where
  videoDirectory : Str
  ffmpegPath : Option Str := none
  cacheEnabled : Option Bool := none
  outputFormat : Option OutputFormat := none

/-- Immutable state of a `FormatConverter` after construction. -/
structure FormatConverter where
  cacheDir : Str
  ffmpegPath : Str
  cacheEnabled : Bool
  outputFormat : OutputFormat
deriving DecidableEq

/-- The `FormatConverter` constructor: cache directory is
`videoDirectory/.cache`; defaults are `ffmpeg`, caching on, `mjpeg`. -/
def FormatConverter.create (options : FormatConverterOptions) : FormatConverter :=
  { cacheDir := pathJoin options.videoDirectory (str ".cache")
  , ffmpegPath := options.ffmpegPath.getD (str "ffmpeg")
  , cacheEnabled := options.cacheEnabled.getD true
  , outputFormat := options.outputFormat.getD .mjpeg }

/-- Double-quote a command-line argument as the template literals do. -/
def quoteArg (s : Str) : Str := '"' :: s ++ ['"']

/-- The fixed flag section of the video command of `convertVideo`
(between the quoted input path and the quoted output path). -/
def videoFlagSection : Str := str " -pix_fmt yuvj420p -f mjpeg -q:v 2 -y "

/-- The fixed flag section of the image command of `convertImage`. -/
def imageFlagSection : Str := str " -frames:v 1 -pix_fmt yuvj420p -f mjpeg -q:v 2 -y "

/-- The command string built by `convertVideo`. -/
def mkVideoCmd (ffmpegPath input output : Str) : Str :=
  quoteArg ffmpegPath ++ str " -i " ++ quoteArg input ++ videoFlagSection ++ quoteArg output

/-- The command string built by `convertImage`. -/
def mkImageCmd (ffmpegPath input output : Str) : Str :=
  quoteArg ffmpegPath ++ str " -i " ++ quoteArg input ++ imageFlagSection ++ quoteArg output

/-- Behaviour of one encoder subprocess run: on success the encoder has
written `outContent` at the output path named in the command; on failure
it reports a generic message, an optional error-stream text, and may have
left a partial file at the output path. -/
inductive FfmpegRun where
  | success (outContent : List Nat)
  | failure (message : Str) (stderrText : Option Str) (partialOut : Option (List Nat))
deriving DecidableEq

/-- The external encoder, abstracted as a function from the full command
string to the behaviour of running it. -/
abbrev Ffmpeg := Str → FfmpegRun

/-- Failure modes of `convert`: the generic source-not-found error, the
`UnsupportedFormatError` (carrying path and extension) and the
`ConversionError` (carrying input path and diagnostic output). -/
inductive ConvertError where
  | sourceNotFound (path : Str)
  | unsupportedFormat (filePath extension : Str)
  | conversionFailed (inputPath : Str) (ffmpegOutput : Str)
deriving DecidableEq

/-- Outcome of `convert`: the returned path or the thrown error. -/
inductive ConvOut where
  | ok (path : Str)
  | fail (e : ConvertError)
deriving DecidableEq

/-- Full observable result of one `convert` call: the filesystem after the
call, the encoder commands that were executed, and the outcome. -/
structure ConvertResult where
  fs : FS
  calls : List Str
  result : ConvOut
deriving DecidableEq

/-- `getCachedPath` of `format-converter.ts`. -/
def FormatConverter.getCachedPath (c : FormatConverter) (sha : List Nat → Str)
    (fs : FS) (cwd sourcePath : Str) : Option Str :=
  if c.cacheEnabled = false then none
  else
    let absolutePath := pathResolve cwd sourcePath
    match fsLookup fs absolutePath with
    | none => none
    | some content =>
      let hash := computeFileHash sha content
      let cachedFile := pathJoin c.cacheDir (hash ++ '.' :: c.outputFormat.name)
      if (fsLookup fs cachedFile).isSome then some cachedFile else none

/-- Output path generated by `convert` on a cache miss
(`format-converter.ts` lines 144-148): the fingerprint-named cache file
when caching is enabled, otherwise a sibling of the source with the target
extension. -/
def FormatConverter.outputPathFor (c : FormatConverter) (sha : List Nat → Str)
    (content : List Nat) (absolutePath : Str) : Str :=
  let hash := computeFileHash sha content
  if c.cacheEnabled then
    pathJoin c.cacheDir (hash ++ '.' :: c.outputFormat.name)
  else
    pathJoin (dirname absolutePath)
      (basenameExt absolutePath (extname absolutePath) ++ '.' :: c.outputFormat.name)

/-- Temporary path used for the atomic write (`outputPath + ".tmp"`). -/
def FormatConverter.tempPathFor (c : FormatConverter) (sha : List Nat → Str)
    (content : List Nat) (absolutePath : Str) : Str :=
  c.outputPathFor sha content absolutePath ++ str ".tmp"

/-- Encoder command chosen by class: `convertVideo` for the `video` class,
`convertImage` otherwise. -/
def FormatConverter.commandFor (c : FormatConverter) (format : FormatType)
    (absolutePath tempPath : Str) : Str :=
  if format = .video then mkVideoCmd c.ffmpegPath absolutePath tempPath
  else mkImageCmd c.ffmpegPath absolutePath tempPath

/-- Filesystem after the failure branch of `convert`: the encoder may have
left a partial file at the temporary path; `convert` then deletes the
temporary file when it exists (`format-converter.ts` lines 163-168). -/
def failureCleanupFS (fs : FS) (tempPath : Str) (partialOut : Option (List Nat)) : FS :=
  let fs1 := match partialOut with
    | some pc => fsWrite fs tempPath pc
    | none => fs
  if (fsLookup fs1 tempPath).isSome then fsErase fs1 tempPath else fs1

/-- `convert` of `format-converter.ts`: resolve, check existence,
classify, consult the cache, and on a miss run the encoder against the
temporary path and atomically rename, cleaning up on failure. -/
def FormatConverter.convert (c : FormatConverter) (sha : List Nat → Str)
    (ffmpeg : Ffmpeg) (fs : FS) (cwd sourcePath : Str) : ConvertResult :=
  let absolutePath := pathResolve cwd sourcePath
  match fsLookup fs absolutePath with
  | none => ⟨fs, [], .fail (.sourceNotFound absolutePath)⟩
  | some content =>
    match detectFormat absolutePath with
    | .mjpeg => ⟨fs, [], .ok absolutePath⟩
    | .y4m => ⟨fs, [], .ok absolutePath⟩
    | .unknown => ⟨fs, [], .fail (.unsupportedFormat absolutePath (extname absolutePath))⟩
    | format =>
      match c.getCachedPath sha fs cwd sourcePath with
      | some cachedPath => ⟨fs, [], .ok cachedPath⟩
      | none =>
        let outputPath := c.outputPathFor sha content absolutePath
        let tempPath := outputPath ++ str ".tmp"
        let command := c.commandFor format absolutePath tempPath
        match ffmpeg command with
        | .success outContent =>
          let fs1 := fsWrite fs tempPath outContent
          let fs2 := fsRename fs1 tempPath outputPath
          ⟨fs2, [command], .ok outputPath⟩
        | .failure message stderrText partialOut =>
          ⟨failureCleanupFS fs tempPath partialOut, [command],
            .fail (.conversionFailed absolutePath (stderrText.getD message))⟩

/-- `getOutputExtension` of `format-converter.ts`. -/
def FormatConverter.getOutputExtension (c : FormatConverter) : Str :=
  '.' :: c.outputFormat.name

/-- `SUPPORTED_FORMATS` of `errors.ts` (`UnsupportedFormatError`). -/
def SUPPORTED_FORMATS : List Str :=
  [ str ".mjpeg", str ".y4m"
  , str ".mp4", str ".webm", str ".avi", str ".mov"
  , str ".png", str ".jpg", str ".jpeg", str ".gif", str ".bmp" ]

/-- Model of JavaScript `Array.prototype.join(", ")`. -/
def joinComma : List Str → Str
  | [] => []
  | [x] => x
  | x :: xs => x ++ str ", " ++ joinComma xs

/-- Message built by the `UnsupportedFormatError` constructor. -/
def unsupportedFormatMessage (filePath extension : Str) : Str :=
  str "Unsupported format \x22" ++ extension ++ str "\x22 for file \x22" ++ filePath
    ++ str "\x22. Supported formats: " ++ joinComma SUPPORTED_FORMATS

/-- Result of one `exec` call in the ffmpeg checker: captured output
streams on success, or the thrown error's message on failure. -/
inductive ExecResult where
  | ok (stdout stderrText : Str)
  | err (message : Str)
deriving DecidableEq

/-- `FfmpegAvailability` of `ffmpeg-checker`. -/
structure FfmpegAvailability where
  available : Bool
  path : Option Str
  version : Option Str
  error : Option Str
deriving DecidableEq

/-- Drop the pattern `pat` from the front of `s`, or `none` when `s` does
not start with `pat`. -/
def dropPre : Str → Str → Option Str
  | [], s => some s
  | _ :: _, [] => none
  | a :: as, b :: bs => if a = b then dropPre as bs else none

/-- Whitespace test for the regex class `\S`. -/
def isSpaceC (c : Char) : Bool :=
  c = ' ' ∨ c = '\t' ∨ c = '\n' ∨ c = '\r'

/-- Leftmost match of the regex `pat(\S+)` in a string, returning the
capture group: at each position, the literal pattern followed by a maximal
nonempty run of non-space characters. -/
def scanAfter (pat : Str) : Str → Option Str
  | [] => none
  | x :: xs =>
    match dropPre pat (x :: xs) with
    | some rest =>
      let v := rest.takeWhile (fun c => !isSpaceC c)
      if v = [] then scanAfter pat xs else some v
    | none => scanAfter pat xs

/-- Model of `output.match(/ffmpeg version (\S+)/)`, first capture. -/
def matchVersion (output : Str) : Option Str :=
  scanAfter (str "ffmpeg version ") output

/-- `checkFfmpegAvailability` of the ffmpeg checker: run the encoder with
the version flag; success means available (version parsed from
`stdout || stderr` is informational only), failure means unavailable. -/
def checkFfmpegAvailability (ex : Str → ExecResult) (customPath : Option Str) :
    FfmpegAvailability :=
  let ffmpegPath := customPath.getD (str "ffmpeg")
  match ex (quoteArg ffmpegPath ++ str " -version") with
  | .ok stdout stderrText =>
    let output := if stdout = [] then stderrText else stdout
    let version := matchVersion output
    { available := true, path := some ffmpegPath, version := version, error := none }
  | .err message =>
    { available := false, path := none, version := none, error := some message }

/-- Platform-keyed installation-instruction table of
`getInstallationInstructions`. -/
def installInstructionsTable : List (Str × Str) :=
  [ ( str "darwin"
    , str "FFmpeg is required but not found. Install it using:\n  brew install ffmpeg\n\nOr download from: https://ffmpeg.org/download.html" )
  , ( str "linux"
    , str "FFmpeg is required but not found. Install it using:\n  Ubuntu/Debian: sudo apt-get install ffmpeg\n  Fedora: sudo dnf install ffmpeg\n  Arch: sudo pacman -S ffmpeg\n\nOr download from: https://ffmpeg.org/download.html" )
  , ( str "win32"
    , str "FFmpeg is required but not found. Install it using:\n  winget install FFmpeg\n  OR\n  choco install ffmpeg\n\nOr download from: https://ffmpeg.org/download.html\nAfter downloading, add the bin folder to your PATH." ) ]

/-- Generic fallback text of `getInstallationInstructions`. -/
def genericInstallInstructions : Str :=
  str "FFmpeg is required but not found.\nDownload from: https://ffmpeg.org/download.html\nEnsure ffmpeg is available in your PATH."

/-- `getInstallationInstructions` of the ffmpeg checker, with the host
platform (`process.platform`) passed explicitly. -/
def getInstallationInstructions (platform : Str) : Str :=
  (lookupStr installInstructionsTable platform).getD genericInstallInstructions

/-- `FfmpegNotFoundError` as raised by `onPrepare`. -/
structure FfmpegNotFoundError where
  message : Str
deriving DecidableEq

/-- The FFmpeg-availability gate of `CameraService.onPrepare`
(`camera.service.ts` lines 38-47): when the default feed needs conversion
and the probe reports unavailable, raise `FfmpegNotFoundError` whose
message embeds the platform-selected installation instructions. -/
def onPrepareFfmpegGate (ex : Str → ExecResult) (platform : Str)
    (defaultCameraFeed : Str) (ffmpegPath : Option Str) :
    Option FfmpegNotFoundError :=
  if requiresConversion defaultCameraFeed then
    let ffmpegStatus := checkFfmpegAvailability ex ffmpegPath
    if ffmpegStatus.available = false then
      some ⟨str "FFmpeg is required to convert " ++ defaultCameraFeed
        ++ str " but was not found.\n\n" ++ getInstallationInstructions platform⟩
    else none
  else none

/-- Placeholder SHA-256 used to instantiate the abstract hash parameter in
witnesses and counterexamples (the claims settled here do not depend on
properties of the digest function itself). -/
def shaTest (bytes : List Nat) : Str :=
  str "h" ++ (natDecimal (bytes.length + bytes.sum)).map Char.ofNat

/-- Boolean prefix test on character lists (`isPrefixB pat s`). -/
def isPrefixB : Str → Str → Bool
  | [], _ => true
  | _ :: _, [] => false
  | a :: as, b :: bs => a = b && isPrefixB as bs

/-- Boolean substring test: does `pat` occur contiguously in `s`? -/
def containsSub (s pat : Str) : Bool :=
  match s with
  | [] => isPrefixB pat []
  | _ :: rest => isPrefixB pat s || containsSub rest pat

/-- Example converter with default options (caching on, mjpeg output,
cache directory `/videos/.cache`), used by witnesses. -/
def exConv : FormatConverter :=
  FormatConverter.create { videoDirectory := str "/videos" }

/-- Example converter with caching disabled, used by counterexamples. -/
def exConvNoCache : FormatConverter :=
  { exConv with cacheEnabled := false }

/-- Example encoder that always succeeds writing the bytes `[7, 7]`. -/
def exFfmpegOk : Ffmpeg := fun _ => .success [7, 7]

/-- Example encoder that always fails with error-stream diagnostics and no
partial output file. -/
def exFfmpegFail : Ffmpeg :=
  fun _ => .failure (str "ffmpeg exited with code 1") (some (str "Invalid data found")) none

/-- Example filesystem holding one convertible video file. -/
def exFS : FS := [(str "/v/a.mp4", [1, 2, 3])]

/-- Example filesystem holding a convertible video file and a pre-existing
file at the sibling destination path. -/
def exFS2 : FS := [(str "/v/a.mp4", [1]), (str "/v/a.mjpeg", [9])]

/-- Example filesystem holding one file with an unsupported extension. -/
def exFSTxt : FS := [(str "/v/notes.txt", [5])]

/-- Example filesystem holding two files with identical bytes under
different convertible extensions. -/
def exFSAB : FS := [(str "/v/a.mp4", [1, 2, 3]), (str "/v/b.png", [1, 2, 3])]

/-- Example `exec` that reports an ffmpeg version banner on stdout. -/
def exExecOk : Str → ExecResult := fun _ => .ok (str "ffmpeg version 6.0 (c)") []

/-- Example `exec` whose output contains no parseable version string. -/
def exExecOkNoVersion : Str → ExecResult := fun _ => .ok (str "banner only") []

/-- Example `exec` that fails to launch the encoder. -/
def exExecFail : Str → ExecResult := fun _ => .err (str "spawn ffmpeg ENOENT")

theorem takeUntil_of_not_mem (c : Char) (a : Str) (h : c ∉ a) :
    takeUntil c a = a := by
  induction a with
  | nil => rfl
  | cons x xs ih =>
    simp only [List.mem_cons, not_or] at h
    simp only [takeUntil, if_neg (Ne.symm h.1)]
    exact congrArg (x :: ·) (ih h.2)

theorem takeUntil_append_of_not_mem (c : Char) (a b : Str) (h : c ∉ a) :
    takeUntil c (a ++ b) = a ++ takeUntil c b := by
  induction a with
  | nil => rfl
  | cons x xs ih =>
    simp only [List.mem_cons, not_or] at h
    simp only [List.cons_append, takeUntil, if_neg (Ne.symm h.1)]
    exact congrArg (x :: ·) (ih h.2)

theorem takeUntil_append_cons (c : Char) (a b : Str) (h : c ∉ a) :
    takeUntil c (a ++ c :: b) = a := by
  induction a with
  | nil => simp [takeUntil]
  | cons x xs ih =>
    simp only [List.mem_cons, not_or] at h
    simp only [List.cons_append, takeUntil, if_neg (Ne.symm h.1)]
    exact congrArg (x :: ·) (ih h.2)

theorem fsLookup_fsWrite (fs : FS) (p q : Str) (c : List Nat) :
    fsLookup (fsWrite fs p c) q = if p = q then some c else fsLookup fs q := rfl

theorem fsLookup_fsWrite_self (fs : FS) (p : Str) (c : List Nat) :
    fsLookup (fsWrite fs p c) p = some c := by
  simp [fsLookup_fsWrite]

theorem fsLookup_fsErase_self (fs : FS) (p : Str) :
    fsLookup (fsErase fs p) p = none := by
  induction fs with
  | nil => rfl
  | cons hd tl ih =>
    obtain ⟨r, c⟩ := hd
    by_cases hrp : r = p
    · simp [fsErase, hrp, ih]
    · simp [fsErase, fsLookup, hrp, ih]

theorem fsLookup_fsErase_ne (fs : FS) (p q : Str) (h : p ≠ q) :
    fsLookup (fsErase fs p) q = fsLookup fs q := by
  induction fs with
  | nil => rfl
  | cons hd tl ih =>
    obtain ⟨r, c⟩ := hd
    by_cases hrp : r = p
    · subst hrp
      simp only [fsErase, if_pos rfl]
      simp only [fsLookup, if_neg h]
      exact ih
    · simp only [fsErase, if_neg hrp, fsLookup]
      by_cases hrq : r = q
      · simp [hrq]
      · simp [hrq, ih]

theorem digitsVal_decDigitsAux (f : Nat) : ∀ n : Nat, n ≤ f →
    digitsVal (decDigitsAux f n) = n := by
  induction f with
  | zero =>
    intro n h
    have : n = 0 := Nat.le_zero.mp h
    subst this
    rfl
  | succ f ih =>
    intro n h
    by_cases hn : n = 0
    · subst hn; rfl
    · have hdiv : n / 10 ≤ f := by
        have : n / 10 < n := Nat.div_lt_self (Nat.pos_of_ne_zero hn) (by norm_num)
        omega
      simp only [decDigitsAux, if_neg hn, digitsVal]
      rw [ih (n / 10) hdiv]
      exact Nat.mod_add_div n 10

theorem natDecimal_injective : Function.Injective natDecimal := by
  have hmap : Function.Injective (fun d : Nat => d + 48) := by
    intro x y hxy
    simp only at hxy
    omega
  intro a b h
  unfold natDecimal at h
  by_cases ha : a = 0 <;> by_cases hb : b = 0
  · omega
  · exfalso
    rw [if_pos ha, if_neg hb] at h
    have h0 : List.map (fun d : Nat => d + 48) [0]
        = List.map (fun d : Nat => d + 48) ((decDigitsAux b b).reverse) := by
      simpa using h
    have h2 := List.map_injective_iff.mpr hmap h0
    have h3 : decDigitsAux b b = [0] := by
      have := congrArg List.reverse h2
      simpa using this.symm
    have h4 := digitsVal_decDigitsAux b b le_rfl
    rw [h3] at h4
    simp [digitsVal] at h4
    exact hb h4.symm
  · exfalso
    rw [if_neg ha, if_pos hb] at h
    have h0 : List.map (fun d : Nat => d + 48) [0]
        = List.map (fun d : Nat => d + 48) ((decDigitsAux a a).reverse) := by
      simpa using h.symm
    have h2 := List.map_injective_iff.mpr hmap h0
    have h3 : decDigitsAux a a = [0] := by
      have := congrArg List.reverse h2
      simpa using this.symm
    have h4 := digitsVal_decDigitsAux a a le_rfl
    rw [h3] at h4
    simp [digitsVal] at h4
    exact ha h4.symm
  · rw [if_neg ha, if_neg hb] at h
    have h2 := List.map_injective_iff.mpr hmap h
    have h3 := List.reverse_injective h2
    have h4 := digitsVal_decDigitsAux a a le_rfl
    have h5 := digitsVal_decDigitsAux b b le_rfl
    rw [h3] at h4
    rw [h5] at h4
    exact h4.symm

theorem hashInput_ne_of_length_ne (c1 c2 : List Nat)
    (htake : c1.take 65536 = c2.take 65536) (hlen : c1.length ≠ c2.length) :
    hashInput c1 ≠ hashInput c2 := by
  unfold hashInput
  rw [htake]
  intro h
  exact hlen (natDecimal_injective (List.append_cancel_left h))

theorem lastComp_append_cons (x t : Str) (c d : Char) (hcd : d ≠ c) (h : c ∉ t) :
    lastComp c (x ++ d :: t) = lastComp c x ++ d :: t := by
  unfold lastComp
  rw [List.reverse_append, List.reverse_cons]
  rw [List.append_assoc, List.singleton_append]
  rw [takeUntil_append_of_not_mem c t.reverse _ (by simpa using h)]
  have hstep : takeUntil c (d :: x.reverse) = d :: takeUntil c x.reverse := by
    simp only [takeUntil, if_neg hcd]
  rw [hstep, List.reverse_append, List.reverse_cons, List.reverse_reverse]
  rw [List.append_assoc, List.singleton_append]

theorem extname_append_ext (x t : Str) (h1 : '/' ∉ t) (h2 : '.' ∉ t) :
    extname (x ++ '.' :: t) = [] ∨ extname (x ++ '.' :: t) = '.' :: t := by
  have hb : lastComp '/' (x ++ '.' :: t) = lastComp '/' x ++ '.' :: t :=
    lastComp_append_cons x t '/' '.' (by decide) h1
  simp only [extname]
  rw [hb]
  have hrev : (lastComp '/' x ++ '.' :: t).reverse
      = t.reverse ++ '.' :: (lastComp '/' x).reverse := by
    rw [List.reverse_append, List.reverse_cons, List.append_assoc, List.singleton_append]
  rw [hrev]
  rw [takeUntil_append_cons '.' t.reverse _ (by simpa using h2)]
  simp only [List.length_reverse, List.length_append, List.length_cons]
  by_cases hL : (lastComp '/' x).length = 0
  · left
    rw [if_neg (by omega), if_pos (by omega)]
  · right
    rw [if_neg (by omega), if_neg (by omega), List.reverse_reverse]

theorem detectFormat_append_ext (x t : Str) (h1 : '/' ∉ t) (h2 : '.' ∉ t) :
    detectFormat (x ++ '.' :: t) = .unknown ∨
    detectFormat (x ++ '.' :: t)
      = (lookupStr EXTENSION_TO_FORMAT (lowerStr ('.' :: t))).getD .unknown := by
  rcases extname_append_ext x t h1 h2 with h | h
  · left
    unfold detectFormat
    rw [h]
    decide
  · right
    unfold detectFormat
    rw [h]

theorem requiresConversion_append_tmp (x : Str) :
    requiresConversion (x ++ str ".tmp") = false := by
  have h := detectFormat_append_ext x (str "tmp") (by decide) (by decide)
  unfold requiresConversion
  rcases h with h | h <;> rw [show x ++ str ".tmp" = x ++ '.' :: str "tmp" from rfl, h]
  decide

theorem requiresConversion_append_mjpeg (x : Str) :
    requiresConversion (x ++ str ".mjpeg") = false := by
  have h := detectFormat_append_ext x (str "mjpeg") (by decide) (by decide)
  unfold requiresConversion
  rcases h with h | h <;> rw [show x ++ str ".mjpeg" = x ++ '.' :: str "mjpeg" from rfl, h]
  decide

theorem requiresConversion_append_y4m (x : Str) :
    requiresConversion (x ++ str ".y4m") = false := by
  have h := detectFormat_append_ext x (str "y4m") (by decide) (by decide)
  unfold requiresConversion
  rcases h with h | h <;> rw [show x ++ str ".y4m" = x ++ '.' :: str "y4m" from rfl, h]
  decide

theorem requiresConversion_pathJoin_name (d stem : Str) (fmt : OutputFormat) :
    requiresConversion (pathJoin d (stem ++ '.' :: fmt.name)) = false := by
  have hsh : pathJoin d (stem ++ '.' :: fmt.name)
      = (d ++ '/' :: stem) ++ '.' :: fmt.name := by
    simp [pathJoin]
  rw [hsh]
  cases fmt with
  | mjpeg => exact requiresConversion_append_mjpeg (d ++ '/' :: stem)
  | y4m => exact requiresConversion_append_y4m (d ++ '/' :: stem)

theorem requiresConversion_outputPathFor (c : FormatConverter) (sha : List Nat → Str)
    (content : List Nat) (absolutePath : Str) :
    requiresConversion (c.outputPathFor sha content absolutePath) = false := by
  unfold FormatConverter.outputPathFor
  by_cases hE : c.cacheEnabled
  · rw [if_pos hE]
    exact requiresConversion_pathJoin_name _ _ _
  · rw [if_neg hE]
    exact requiresConversion_pathJoin_name _ _ _

theorem requiresConversion_tempPathFor (c : FormatConverter) (sha : List Nat → Str)
    (content : List Nat) (absolutePath : Str) :
    requiresConversion (c.tempPathFor sha content absolutePath) = false := by
  unfold FormatConverter.tempPathFor
  exact requiresConversion_append_tmp _

theorem failureCleanupFS_lookup_temp (fs : FS) (t : Str) (po : Option (List Nat)) :
    fsLookup (failureCleanupFS fs t po) t = none := by
  unfold failureCleanupFS
  cases po with
  | none =>
    simp only
    by_cases h : (fsLookup fs t).isSome
    · rw [if_pos h]
      exact fsLookup_fsErase_self fs t
    · rw [if_neg h]
      exact Option.not_isSome_iff_eq_none.mp h
  | some pc =>
    simp only [fsLookup_fsWrite_self, Option.isSome_some, if_pos]
    exact fsLookup_fsErase_self _ t

theorem failureCleanupFS_lookup_ne (fs : FS) (t q : Str) (po : Option (List Nat))
    (h : t ≠ q) :
    fsLookup (failureCleanupFS fs t po) q = fsLookup fs q := by
  unfold failureCleanupFS
  cases po with
  | none =>
    simp only
    by_cases hs : (fsLookup fs t).isSome
    · rw [if_pos hs]
      exact fsLookup_fsErase_ne fs t q h
    · rw [if_neg hs]
  | some pc =>
    simp only [fsLookup_fsWrite_self, Option.isSome_some, if_pos]
    rw [fsLookup_fsErase_ne _ t q h, fsLookup_fsWrite, if_neg h]

theorem successFS_lookup_out (fs : FS) (t o : Str) (oc : List Nat) :
    fsLookup (fsRename (fsWrite fs t oc) t o) o = some oc := by
  unfold fsRename
  rw [fsLookup_fsWrite_self]
  exact fsLookup_fsWrite_self _ o oc

theorem successFS_lookup_temp (fs : FS) (t o : Str) (oc : List Nat) (h : t ≠ o) :
    fsLookup (fsRename (fsWrite fs t oc) t o) t = none := by
  unfold fsRename
  rw [fsLookup_fsWrite_self]
  simp only
  rw [fsLookup_fsWrite, if_neg (Ne.symm h)]
  exact fsLookup_fsErase_self _ t

theorem successFS_lookup_ne (fs : FS) (t o q : Str) (oc : List Nat)
    (ht : t ≠ q) (ho : o ≠ q) :
    fsLookup (fsRename (fsWrite fs t oc) t o) q = fsLookup fs q := by
  unfold fsRename
  rw [fsLookup_fsWrite_self]
  simp only
  rw [fsLookup_fsWrite, if_neg ho, fsLookup_fsErase_ne _ t q ht, fsLookup_fsWrite, if_neg ht]

theorem convert_notFound (c : FormatConverter) (sha : List Nat → Str) (ffmpeg : Ffmpeg)
    (fs : FS) (cwd p : Str) (h : fsLookup fs (pathResolve cwd p) = none) :
    c.convert sha ffmpeg fs cwd p
      = ⟨fs, [], .fail (.sourceNotFound (pathResolve cwd p))⟩ := by
  simp only [FormatConverter.convert, h]

theorem convert_native (c : FormatConverter) (sha : List Nat → Str) (ffmpeg : Ffmpeg)
    (fs : FS) (cwd p : Str) (content : List Nat)
    (hx : fsLookup fs (pathResolve cwd p) = some content)
    (hf : detectFormat (pathResolve cwd p) = .mjpeg
        ∨ detectFormat (pathResolve cwd p) = .y4m) :
    c.convert sha ffmpeg fs cwd p = ⟨fs, [], .ok (pathResolve cwd p)⟩ := by
  rcases hf with hf | hf <;> simp only [FormatConverter.convert, hx, hf]

theorem convert_unknown (c : FormatConverter) (sha : List Nat → Str) (ffmpeg : Ffmpeg)
    (fs : FS) (cwd p : Str) (content : List Nat)
    (hx : fsLookup fs (pathResolve cwd p) = some content)
    (hf : detectFormat (pathResolve cwd p) = .unknown) :
    c.convert sha ffmpeg fs cwd p
      = ⟨fs, [], .fail (.unsupportedFormat (pathResolve cwd p)
          (extname (pathResolve cwd p)))⟩ := by
  simp only [FormatConverter.convert, hx, hf]

theorem convert_hit (c : FormatConverter) (sha : List Nat → Str) (ffmpeg : Ffmpeg)
    (fs : FS) (cwd p q : Str) (content : List Nat)
    (hx : fsLookup fs (pathResolve cwd p) = some content)
    (hf : detectFormat (pathResolve cwd p) = .video
        ∨ detectFormat (pathResolve cwd p) = .image)
    (hcache : c.getCachedPath sha fs cwd p = some q) :
    c.convert sha ffmpeg fs cwd p = ⟨fs, [], .ok q⟩ := by
  rcases hf with hf | hf <;> simp only [FormatConverter.convert, hx, hf, hcache]

theorem convert_miss_success (c : FormatConverter) (sha : List Nat → Str)
    (ffmpeg : Ffmpeg) (fs : FS) (cwd p : Str) (content oc : List Nat)
    (hx : fsLookup fs (pathResolve cwd p) = some content)
    (hf : detectFormat (pathResolve cwd p) = .video
        ∨ detectFormat (pathResolve cwd p) = .image)
    (hcache : c.getCachedPath sha fs cwd p = none)
    (hrun : ffmpeg (c.commandFor (detectFormat (pathResolve cwd p)) (pathResolve cwd p)
        (c.tempPathFor sha content (pathResolve cwd p))) = .success oc) :
    c.convert sha ffmpeg fs cwd p
      = ⟨fsRename
            (fsWrite fs (c.tempPathFor sha content (pathResolve cwd p)) oc)
            (c.tempPathFor sha content (pathResolve cwd p))
            (c.outputPathFor sha content (pathResolve cwd p)),
          [c.commandFor (detectFormat (pathResolve cwd p)) (pathResolve cwd p)
            (c.tempPathFor sha content (pathResolve cwd p))],
          .ok (c.outputPathFor sha content (pathResolve cwd p))⟩ := by
  rcases hf with hf | hf <;>
    (rw [hf] at hrun
     simp only [FormatConverter.tempPathFor] at hrun
     simp only [FormatConverter.convert, FormatConverter.tempPathFor, hx, hf, hcache, hrun])

theorem convert_miss_failure (c : FormatConverter) (sha : List Nat → Str)
    (ffmpeg : Ffmpeg) (fs : FS) (cwd p : Str) (content : List Nat)
    (message : Str) (stderrText : Option Str) (partialOut : Option (List Nat))
    (hx : fsLookup fs (pathResolve cwd p) = some content)
    (hf : detectFormat (pathResolve cwd p) = .video
        ∨ detectFormat (pathResolve cwd p) = .image)
    (hcache : c.getCachedPath sha fs cwd p = none)
    (hrun : ffmpeg (c.commandFor (detectFormat (pathResolve cwd p)) (pathResolve cwd p)
        (c.tempPathFor sha content (pathResolve cwd p)))
      = .failure message stderrText partialOut) :
    c.convert sha ffmpeg fs cwd p
      = ⟨failureCleanupFS fs (c.tempPathFor sha content (pathResolve cwd p)) partialOut,
          [c.commandFor (detectFormat (pathResolve cwd p)) (pathResolve cwd p)
            (c.tempPathFor sha content (pathResolve cwd p))],
          .fail (.conversionFailed (pathResolve cwd p) (stderrText.getD message))⟩ := by
  rcases hf with hf | hf <;>
    (rw [hf] at hrun
     simp only [FormatConverter.tempPathFor] at hrun
     simp only [FormatConverter.convert, FormatConverter.tempPathFor, hx, hf, hcache, hrun])

theorem getCachedPath_spec (c : FormatConverter) (sha : List Nat → Str)
    (fs : FS) (cwd p q : Str) :
    c.getCachedPath sha fs cwd p = some q ↔
      (c.cacheEnabled = true ∧
       ∃ content, fsLookup fs (pathResolve cwd p) = some content ∧
         q = pathJoin c.cacheDir
           (computeFileHash sha content ++ '.' :: c.outputFormat.name) ∧
         (fsLookup fs q).isSome = true) := by
  unfold FormatConverter.getCachedPath
  cases hE : c.cacheEnabled with
  | false => simp
  | true =>
    cases hL : fsLookup fs (pathResolve cwd p) with
    | none => simp [hL]
    | some content =>
      by_cases hS : (fsLookup fs (pathJoin c.cacheDir
          (computeFileHash sha content ++ '.' :: c.outputFormat.name))).isSome
      · simp [hL, hS]
        constructor
        · intro h
          exact ⟨h.symm, h ▸ hS⟩
        · intro h
          exact h.1.symm
      · simp [hL, hS]
        intro h
        rw [h]
        exact Option.not_isSome_iff_eq_none.mp hS

theorem outputPathFor_cacheEnabled (c : FormatConverter) (sha : List Nat → Str)
    (content : List Nat) (a : Str) (hE : c.cacheEnabled = true) :
    c.outputPathFor sha content a
      = pathJoin c.cacheDir (computeFileHash sha content ++ '.' :: c.outputFormat.name) := by
  simp [FormatConverter.outputPathFor, hE]

theorem outputPathFor_cacheDisabled (c : FormatConverter) (sha : List Nat → Str)
    (content : List Nat) (a : Str) (hE : c.cacheEnabled = false) :
    c.outputPathFor sha content a
      = pathJoin (dirname a)
          (basenameExt a (extname a) ++ '.' :: c.outputFormat.name) := by
  simp [FormatConverter.outputPathFor, hE]

theorem requiresConversion_eq_true_of (a : Str)
    (hf : detectFormat a = .video ∨ detectFormat a = .image) :
    requiresConversion a = true := by
  unfold requiresConversion
  rcases hf with h | h <;> rw [h]

theorem ne_of_requiresConversion (a b : Str)
    (ha : requiresConversion a = true) (hb : requiresConversion b = false) :
    a ≠ b := by
  intro h
  subst h
  rw [ha] at hb
  exact Bool.noConfusion hb

theorem convert_after_miss_success (c : FormatConverter) (sha : List Nat → Str)
    (ffmpeg : Ffmpeg) (fs : FS) (cwd p1 p2 : Str) (content oc : List Nat)
    (hE : c.cacheEnabled = true)
    (hx1 : fsLookup fs (pathResolve cwd p1) = some content)
    (hf1 : detectFormat (pathResolve cwd p1) = .video
        ∨ detectFormat (pathResolve cwd p1) = .image)
    (hcache : c.getCachedPath sha fs cwd p1 = none)
    (hrun : ffmpeg (c.commandFor (detectFormat (pathResolve cwd p1)) (pathResolve cwd p1)
        (c.tempPathFor sha content (pathResolve cwd p1))) = .success oc)
    (hx2 : fsLookup fs (pathResolve cwd p2) = some content)
    (hf2 : detectFormat (pathResolve cwd p2) = .video
        ∨ detectFormat (pathResolve cwd p2) = .image) :
    c.convert sha ffmpeg (c.convert sha ffmpeg fs cwd p1).fs cwd p2
      = ⟨(c.convert sha ffmpeg fs cwd p1).fs, [],
          .ok (c.outputPathFor sha content (pathResolve cwd p1))⟩ := by
  have hfirst := convert_miss_success c sha ffmpeg fs cwd p1 content oc hx1 hf1 hcache hrun
  rw [hfirst]
  have r2 : requiresConversion (pathResolve cwd p2) = true :=
    requiresConversion_eq_true_of _ hf2
  have hneq_t : pathResolve cwd p2 ≠ c.tempPathFor sha content (pathResolve cwd p1) :=
    ne_of_requiresConversion _ _ r2 (requiresConversion_tempPathFor c sha content _)
  have hneq_o : pathResolve cwd p2 ≠ c.outputPathFor sha content (pathResolve cwd p1) :=
    ne_of_requiresConversion _ _ r2 (requiresConversion_outputPathFor c sha content _)
  have hlook2 : fsLookup
      (fsRename (fsWrite fs (c.tempPathFor sha content (pathResolve cwd p1)) oc)
        (c.tempPathFor sha content (pathResolve cwd p1))
        (c.outputPathFor sha content (pathResolve cwd p1)))
      (pathResolve cwd p2) = some content := by
    rw [successFS_lookup_ne _ _ _ _ _ (Ne.symm hneq_t) (Ne.symm hneq_o)]
    exact hx2
  have houtv : c.outputPathFor sha content (pathResolve cwd p1)
      = pathJoin c.cacheDir (computeFileHash sha content ++ '.' :: c.outputFormat.name) :=
    outputPathFor_cacheEnabled c sha content _ hE
  have hsome : (fsLookup
      (fsRename (fsWrite fs (c.tempPathFor sha content (pathResolve cwd p1)) oc)
        (c.tempPathFor sha content (pathResolve cwd p1))
        (c.outputPathFor sha content (pathResolve cwd p1)))
      (c.outputPathFor sha content (pathResolve cwd p1))).isSome = true := by
    rw [successFS_lookup_out]
    rfl
  have hcache2 : c.getCachedPath sha
      (fsRename (fsWrite fs (c.tempPathFor sha content (pathResolve cwd p1)) oc)
        (c.tempPathFor sha content (pathResolve cwd p1))
        (c.outputPathFor sha content (pathResolve cwd p1)))
      cwd p2 = some (c.outputPathFor sha content (pathResolve cwd p1)) :=
    (getCachedPath_spec c sha _ cwd p2 _).mpr
      ⟨hE, content, hlook2, houtv, hsome⟩
  exact convert_hit c sha ffmpeg _ cwd p2 _ content hlook2 hf2 hcache2

theorem lookupStr_isSome_iff {α : Type} (l : List (Str × α)) (k : Str) :
    (lookupStr l k).isSome = true ↔ k ∈ l.map Prod.fst := by
  induction l with
  | nil =>
    simp only [lookupStr, List.map_nil, List.not_mem_nil, iff_false]
    intro h
    exact Bool.noConfusion h
  | cons hd tl ih =>
    obtain ⟨a, b⟩ := hd
    by_cases h : a = k
    · simp only [lookupStr, if_pos h, List.map_cons, List.mem_cons]
      constructor
      · intro _
        exact Or.inl h.symm
      · intro _
        rfl
    · simp only [lookupStr, if_neg h, List.map_cons, List.mem_cons]
      constructor
      · intro hh
        exact Or.inr (ih.mp hh)
      · rintro (hh | hh)
        · exact absurd hh.symm h
        · exact ih.mpr hh

theorem supported_formats_mem_iff (e : Str) :
    e ∈ SUPPORTED_FORMATS ↔ (lookupStr EXTENSION_TO_FORMAT e).isSome = true := by
  rw [lookupStr_isSome_iff]
  constructor
  · intro h
    fin_cases h <;> decide
  · intro h
    fin_cases h <;> decide

/-- C7: classification is a pure, total function of the lower-cased file
extension (paths whose lower-cased extensions agree classify identically);
it maps `.mjpeg`/`.y4m` to the native classes, `.mp4`/`.webm`/`.avi`/
`.mov`/`.gif` to `video`, `.png`/`.jpg`/`.jpeg`/`.bmp` to `image`, and any
extension outside the table to `unknown`, never raising (`detectFormat` is
a total function by construction); and `requiresConversion` holds exactly
for the `video` and `image` classes. -/
theorem claim_C7_classifier :
    (∀ p q : Str, lowerStr (extname p) = lowerStr (extname q) →
        detectFormat p = detectFormat q)
    ∧ (∀ p : Str, lowerStr (extname p) = str ".mjpeg" → detectFormat p = .mjpeg)
    ∧ (∀ p : Str, lowerStr (extname p) = str ".y4m" → detectFormat p = .y4m)
    ∧ (∀ p : Str, lowerStr (extname p) = str ".mp4" → detectFormat p = .video)
    ∧ (∀ p : Str, lowerStr (extname p) = str ".webm" → detectFormat p = .video)
    ∧ (∀ p : Str, lowerStr (extname p) = str ".avi" → detectFormat p = .video)
    ∧ (∀ p : Str, lowerStr (extname p) = str ".mov" → detectFormat p = .video)
    ∧ (∀ p : Str, lowerStr (extname p) = str ".gif" → detectFormat p = .video)
    ∧ (∀ p : Str, lowerStr (extname p) = str ".png" → detectFormat p = .image)
    ∧ (∀ p : Str, lowerStr (extname p) = str ".jpg" → detectFormat p = .image)
    ∧ (∀ p : Str, lowerStr (extname p) = str ".jpeg" → detectFormat p = .image)
    ∧ (∀ p : Str, lowerStr (extname p) = str ".bmp" → detectFormat p = .image)
    ∧ (∀ p : Str, lookupStr EXTENSION_TO_FORMAT (lowerStr (extname p)) = none →
        detectFormat p = .unknown)
    ∧ (∀ p : Str, requiresConversion p = true ↔
        (detectFormat p = .video ∨ detectFormat p = .image)) := by
  refine ⟨?_, ?_, ?_, ?_, ?_, ?_, ?_, ?_, ?_, ?_, ?_, ?_, ?_, ?_⟩
  · intro p q h
    unfold detectFormat
    rw [h]
  all_goals try (intro p h; unfold detectFormat; rw [h]; rfl)
  · intro p h
    simp only [detectFormat]
    rw [h]
    rfl
  · intro p
    cases h : detectFormat p <;> simp [requiresConversion, h]

/-- Witness for C7 at concrete inputs: an upper-case extension classifies
like its lower-case form. -/
theorem claim_C7_witness :
    detectFormat (str "A.MP4") = detectFormat (str "x/a.mp4") :=
  claim_C7_classifier.1 (str "A.MP4") (str "x/a.mp4") (by decide)

/-- C4: `convert` first resolves the source to an absolute path and fails
with the source-not-found error when no file exists there, before any
classification, cache access, or subprocess work (the failure is uniform
in the extension and leaves the filesystem untouched with zero encoder
calls); and for every existing source classified native (`mjpeg`/`y4m`),
`convert` returns the resolved absolute path unchanged with zero encoder
calls and an unchanged filesystem. -/
theorem claim_C4_resolve_and_native (c : FormatConverter) (sha : List Nat → Str)
    (ffmpeg : Ffmpeg) (fs : FS) (cwd p : Str) :
    (fsLookup fs (pathResolve cwd p) = none →
      c.convert sha ffmpeg fs cwd p
        = ⟨fs, [], .fail (.sourceNotFound (pathResolve cwd p))⟩)
    ∧ (∀ content, fsLookup fs (pathResolve cwd p) = some content →
        (detectFormat (pathResolve cwd p) = .mjpeg
          ∨ detectFormat (pathResolve cwd p) = .y4m) →
        c.convert sha ffmpeg fs cwd p = ⟨fs, [], .ok (pathResolve cwd p)⟩) :=
  ⟨fun h => convert_notFound c sha ffmpeg fs cwd p h,
   fun content hx hf => convert_native c sha ffmpeg fs cwd p content hx hf⟩

/-- Witness for C4: a missing relative source fails with the resolved
absolute path, and an existing `.mjpeg` source is returned unchanged. -/
theorem claim_C4_witness :
    exConv.convert shaTest exFfmpegOk [] (str "/cwd") (str "a.mp4")
      = ⟨[], [], .fail (.sourceNotFound (str "/cwd/a.mp4"))⟩
    ∧ exConv.convert shaTest exFfmpegOk [(str "/v/f.mjpeg", [1])] (str "/cwd") (str "/v/f.mjpeg")
      = ⟨[(str "/v/f.mjpeg", [1])], [], .ok (str "/v/f.mjpeg")⟩ :=
  ⟨(claim_C4_resolve_and_native exConv shaTest exFfmpegOk [] (str "/cwd") (str "a.mp4")).1
      (by decide),
   (claim_C4_resolve_and_native exConv shaTest exFfmpegOk [(str "/v/f.mjpeg", [1])]
      (str "/cwd") (str "/v/f.mjpeg")).2 [1] (by decide) (Or.inl (by decide))⟩

/-- C5: for every existing source whose extension is outside the
classifier table, `convert` fails with `UnsupportedFormatError` carrying
the resolved path and the offending extension, with an unchanged
filesystem and zero encoder calls; and the supported-format list embedded
in that error's message is exactly (as a set) the extensions the
classifier accepts. -/
theorem claim_C5_unsupported (c : FormatConverter) (sha : List Nat → Str)
    (ffmpeg : Ffmpeg) (fs : FS) (cwd p : Str) (content : List Nat)
    (hx : fsLookup fs (pathResolve cwd p) = some content)
    (hf : detectFormat (pathResolve cwd p) = .unknown) :
    c.convert sha ffmpeg fs cwd p
      = ⟨fs, [], .fail (.unsupportedFormat (pathResolve cwd p)
          (extname (pathResolve cwd p)))⟩
    ∧ (∀ e : Str, e ∈ SUPPORTED_FORMATS ↔ (lookupStr EXTENSION_TO_FORMAT e).isSome = true) :=
  ⟨convert_unknown c sha ffmpeg fs cwd p content hx hf,
   fun e => supported_formats_mem_iff e⟩

/-- Witness for C5: `notes.txt` fails with `UnsupportedFormatError` naming
the path and the `.txt` extension, and `.txt` is not a supported format
while `.gif` is. -/
theorem claim_C5_witness :
    exConv.convert shaTest exFfmpegOk exFSTxt (str "/") (str "/v/notes.txt")
      = ⟨exFSTxt, [], .fail (.unsupportedFormat (str "/v/notes.txt") (str ".txt"))⟩
    ∧ (str ".gif" ∈ SUPPORTED_FORMATS
        ↔ (lookupStr EXTENSION_TO_FORMAT (str ".gif")).isSome = true) := by
  have h := claim_C5_unsupported exConv shaTest exFfmpegOk exFSTxt (str "/")
    (str "/v/notes.txt") [5] (by decide) (by decide)
  exact ⟨h.1, h.2 (str ".gif")⟩

/-- C6: `getCachedPath` returns the fingerprint-addressed cache-file path
exactly when caching is enabled, the source exists, and a file already
exists at that cache path; it returns `none` in every other case,
including a disabled cache and a missing source. It is a pure lookup: it
takes the filesystem as a value and performs no mutation and cannot
raise (it is a total function). -/
theorem claim_C6_getCachedPath (c : FormatConverter) (sha : List Nat → Str)
    (fs : FS) (cwd p : Str) :
    (∀ q, c.getCachedPath sha fs cwd p = some q ↔
      (c.cacheEnabled = true ∧
       ∃ content, fsLookup fs (pathResolve cwd p) = some content ∧
         q = pathJoin c.cacheDir
           (computeFileHash sha content ++ '.' :: c.outputFormat.name) ∧
         (fsLookup fs q).isSome = true))
    ∧ (c.cacheEnabled = false → c.getCachedPath sha fs cwd p = none)
    ∧ (fsLookup fs (pathResolve cwd p) = none → c.getCachedPath sha fs cwd p = none) := by
  refine ⟨fun q => getCachedPath_spec c sha fs cwd p q, ?_, ?_⟩
  · intro hE
    simp [FormatConverter.getCachedPath, hE]
  · intro hL
    unfold FormatConverter.getCachedPath
    cases hE : c.cacheEnabled with
    | false => simp
    | true => simp [hL]

/-- Witness for C6: with an empty filesystem the lookup reports `none`
(missing source), and with cached entry present it reports the cache
path. -/
theorem claim_C6_witness :
    exConv.getCachedPath shaTest [] (str "/") (str "/v/a.mp4") = none
    ∧ exConvNoCache.getCachedPath shaTest exFS (str "/") (str "/v/a.mp4") = none :=
  ⟨(claim_C6_getCachedPath exConv shaTest [] (str "/") (str "/v/a.mp4")).2.2 (by decide),
   (claim_C6_getCachedPath exConvNoCache shaTest exFS (str "/") (str "/v/a.mp4")).2.1
      (by decide)⟩

/-- C3: the cache key is the SHA-256 digest of the first 64 KiB of the
file's bytes (the whole file if smaller) concatenated with the ASCII
decimal rendering of the exact byte length; the cache file is named
`<digest>.<output-extension>` inside the cache directory; two files with
identical content yield the same key (and the same cache lookup) at any
paths; and two contents sharing their first 64 KiB but differing in byte
length yield distinct digest inputs. -/
theorem claim_C3_cache_key (c : FormatConverter) (sha : List Nat → Str)
    (content c1 c2 : List Nat) :
    computeFileHash sha content = sha (content.take 65536 ++ natDecimal content.length)
    ∧ (∀ fs cwd p q, c.getCachedPath sha fs cwd p = some q →
        ∃ cont, fsLookup fs (pathResolve cwd p) = some cont ∧
          q = pathJoin c.cacheDir
            (computeFileHash sha cont ++ '.' :: c.outputFormat.name))
    ∧ (∀ (fs : FS) (cwd p1 p2 : Str) (cont : List Nat),
        fsLookup fs (pathResolve cwd p1) = some cont →
        fsLookup fs (pathResolve cwd p2) = some cont →
        c.getCachedPath sha fs cwd p1 = c.getCachedPath sha fs cwd p2)
    ∧ (c1.take 65536 = c2.take 65536 → c1.length ≠ c2.length →
        hashInput c1 ≠ hashInput c2) := by
  refine ⟨rfl, ?_, ?_, ?_⟩
  · intro fs cwd p q h
    obtain ⟨-, cont, hl, hq, -⟩ := (getCachedPath_spec c sha fs cwd p q).mp h
    exact ⟨cont, hl, hq⟩
  · intro fs cwd p1 p2 cont h1 h2
    simp only [FormatConverter.getCachedPath, h1, h2]
  · intro htake hlen
    exact hashInput_ne_of_length_ne c1 c2 htake hlen

/-- Witness for C3: two files with the same bytes at different paths get
the same cache lookup, and two contents agreeing on their first 64 KiB but
of different lengths have distinct digest inputs. -/
theorem claim_C3_witness :
    exConv.getCachedPath shaTest exFSAB (str "/") (str "/v/a.mp4")
      = exConv.getCachedPath shaTest exFSAB (str "/") (str "/v/b.png")
    ∧ hashInput (List.replicate 65536 0) ≠ hashInput (List.replicate 65537 0) := by
  have h := claim_C3_cache_key exConv shaTest [] (List.replicate 65536 0)
    (List.replicate 65537 0)
  refine ⟨h.2.2.1 exFSAB (str "/") (str "/v/a.mp4") (str "/v/b.png") [1, 2, 3]
      (by decide) (by decide), h.2.2.2 ?_ ?_⟩
  · rw [List.take_replicate, List.take_replicate]
    norm_num
  · rw [List.length_replicate, List.length_replicate]
    omega

/-- C1 (amended): for every convertible source, when the cache lookup
reports an entry, `convert` returns that path immediately with zero
encoder calls and an unchanged filesystem; and — provided caching is
enabled and the first call succeeds — a second `convert` on the same
source over the resulting filesystem is a pure cache hit: it performs zero
encoder calls, leaves the filesystem unchanged and returns the same path,
so the two calls together invoke the encoder at most once. -/
theorem claim_C1_idempotence (c : FormatConverter) (sha : List Nat → Str)
    (ffmpeg : Ffmpeg) (fs : FS) (cwd p : Str) (content : List Nat)
    (hx : fsLookup fs (pathResolve cwd p) = some content)
    (hf : detectFormat (pathResolve cwd p) = .video
        ∨ detectFormat (pathResolve cwd p) = .image) :
    (∀ q, c.getCachedPath sha fs cwd p = some q →
        c.convert sha ffmpeg fs cwd p = ⟨fs, [], .ok q⟩)
    ∧ (∀ q, c.cacheEnabled = true →
        (c.convert sha ffmpeg fs cwd p).result = .ok q →
        c.convert sha ffmpeg (c.convert sha ffmpeg fs cwd p).fs cwd p
          = ⟨(c.convert sha ffmpeg fs cwd p).fs, [], .ok q⟩
        ∧ (c.convert sha ffmpeg fs cwd p).calls.length
            + (c.convert sha ffmpeg (c.convert sha ffmpeg fs cwd p).fs cwd p).calls.length
            ≤ 1) := by
  constructor
  · intro q hcache
    exact convert_hit c sha ffmpeg fs cwd p q content hx hf hcache
  · intro q hE hr1
    cases hcache : c.getCachedPath sha fs cwd p with
    | some cached =>
      have hfirst := convert_hit c sha ffmpeg fs cwd p cached content hx hf hcache
      rw [hfirst] at hr1 ⊢
      simp only [ConvOut.ok.injEq] at hr1
      subst hr1
      rw [convert_hit c sha ffmpeg fs cwd p cached content hx hf hcache]
      exact ⟨rfl, by simp⟩
    | none =>
      cases hrun : ffmpeg (c.commandFor (detectFormat (pathResolve cwd p))
          (pathResolve cwd p) (c.tempPathFor sha content (pathResolve cwd p))) with
      | failure m st po =>
        have hfirst := convert_miss_failure c sha ffmpeg fs cwd p content m st po
          hx hf hcache hrun
        rw [hfirst] at hr1
        exact absurd hr1 (by simp)
      | success oc =>
        have hfirst := convert_miss_success c sha ffmpeg fs cwd p content oc
          hx hf hcache hrun
        have hsecond := convert_after_miss_success c sha ffmpeg fs cwd p p content oc
          hE hx hf hcache hrun hx hf
        rw [hfirst] at hr1
        simp only [ConvOut.ok.injEq] at hr1
        subst hr1
        refine ⟨hsecond, ?_⟩
        rw [hsecond, hfirst]
        simp

/-- Witness for C1 at concrete inputs: with caching enabled, after a first
successful conversion of `/v/a.mp4` the second call is a pure cache hit
returning the same path with zero encoder calls. -/
theorem claim_C1_witness :
    exConv.convert shaTest exFfmpegOk
        (exConv.convert shaTest exFfmpegOk exFS (str "/") (str "/v/a.mp4")).fs
        (str "/") (str "/v/a.mp4")
      = ⟨(exConv.convert shaTest exFfmpegOk exFS (str "/") (str "/v/a.mp4")).fs, [],
          .ok (str "/videos/.cache/h61.mjpeg")⟩ :=
  ((claim_C1_idempotence exConv shaTest exFfmpegOk exFS (str "/") (str "/v/a.mp4")
      [1, 2, 3] (by decide) (Or.inl (by decide))).2
    (str "/videos/.cache/h61.mjpeg") (by decide) (by decide)).1

/-- Counterexample to C1 as stated: with caching disabled
(`cacheEnabled: false`), two sequential `convert` calls on the same
unchanged source file both succeed and return the same path, yet the
encoder subprocess is invoked once by each call — two invocations in
total, refuting "invokes the encoder at most once". -/
theorem claim_C1_counterexample :
    (exConvNoCache.convert shaTest exFfmpegOk exFS (str "/") (str "/v/a.mp4")).result
      = .ok (str "/v/a.mjpeg")
    ∧ (exConvNoCache.convert shaTest exFfmpegOk
        (exConvNoCache.convert shaTest exFfmpegOk exFS (str "/") (str "/v/a.mp4")).fs
        (str "/") (str "/v/a.mp4")).result = .ok (str "/v/a.mjpeg")
    ∧ (exConvNoCache.convert shaTest exFfmpegOk exFS (str "/") (str "/v/a.mp4")).calls.length
        + (exConvNoCache.convert shaTest exFfmpegOk
            (exConvNoCache.convert shaTest exFfmpegOk exFS (str "/") (str "/v/a.mp4")).fs
            (str "/") (str "/v/a.mp4")).calls.length = 2 := by
  decide

theorem append_tmp_ne (a : Str) : a ++ str ".tmp" ≠ a := by
  intro h
  have hl := congrArg List.length h
  rw [List.length_append] at hl
  have : (str ".tmp").length = 4 := rfl
  omega

theorem tempPathFor_ne_outputPathFor (c : FormatConverter) (sha : List Nat → Str)
    (content : List Nat) (a : Str) :
    c.tempPathFor sha content a ≠ c.outputPathFor sha content a := by
  unfold FormatConverter.tempPathFor
  exact append_tmp_ne _

theorem getCachedPath_none_cache_file (c : FormatConverter) (sha : List Nat → Str)
    (fs : FS) (cwd p : Str) (content : List Nat)
    (hE : c.cacheEnabled = true)
    (hx : fsLookup fs (pathResolve cwd p) = some content)
    (hcache : c.getCachedPath sha fs cwd p = none) :
    fsLookup fs (pathJoin c.cacheDir
      (computeFileHash sha content ++ '.' :: c.outputFormat.name)) = none := by
  by_contra h
  have hs : (fsLookup fs (pathJoin c.cacheDir
      (computeFileHash sha content ++ '.' :: c.outputFormat.name))).isSome = true :=
    Option.ne_none_iff_isSome.mp h
  have := (getCachedPath_spec c sha fs cwd p _).mpr ⟨hE, content, hx, rfl, hs⟩
  rw [hcache] at this
  exact Option.noConfusion this

theorem convert_miss_calls (c : FormatConverter) (sha : List Nat → Str)
    (ffmpeg : Ffmpeg) (fs : FS) (cwd p : Str) (content : List Nat)
    (hx : fsLookup fs (pathResolve cwd p) = some content)
    (hf : detectFormat (pathResolve cwd p) = .video
        ∨ detectFormat (pathResolve cwd p) = .image)
    (hcache : c.getCachedPath sha fs cwd p = none) :
    (c.convert sha ffmpeg fs cwd p).calls
      = [c.commandFor (detectFormat (pathResolve cwd p)) (pathResolve cwd p)
          (c.tempPathFor sha content (pathResolve cwd p))] := by
  cases hrun : ffmpeg (c.commandFor (detectFormat (pathResolve cwd p)) (pathResolve cwd p)
      (c.tempPathFor sha content (pathResolve cwd p))) with
  | success oc =>
    rw [convert_miss_success c sha ffmpeg fs cwd p content oc hx hf hcache hrun]
  | failure m st po =>
    rw [convert_miss_failure c sha ffmpeg fs cwd p content m st po hx hf hcache hrun]

/-- C2 (amended): on a cache miss for a convertible input the encoder is
invoked exactly once, against the temporary path — the final destination
plus the fixed `.tmp` suffix — never the final path; the final destination
is the fingerprint-named cache file when caching is enabled and otherwise
a sibling of the source with the target extension; on encoder success the
temporary file is renamed onto the final destination (which then holds the
encoder output while the temporary path holds nothing); on encoder failure
the temporary file, if present, is deleted, the final destination is left
exactly as it was before the call (in particular, on a miss with caching
enabled no file exists there afterwards), and the call fails with
`ConversionError` carrying the subprocess's error stream when present,
falling back to its generic message. -/
theorem claim_C2_temp_and_failure (c : FormatConverter) (sha : List Nat → Str)
    (ffmpeg : Ffmpeg) (fs : FS) (cwd p : Str) (content : List Nat)
    (hx : fsLookup fs (pathResolve cwd p) = some content)
    (hf : detectFormat (pathResolve cwd p) = .video
        ∨ detectFormat (pathResolve cwd p) = .image)
    (hcache : c.getCachedPath sha fs cwd p = none) :
    c.tempPathFor sha content (pathResolve cwd p)
      = c.outputPathFor sha content (pathResolve cwd p) ++ str ".tmp"
    ∧ (c.cacheEnabled = true →
        c.outputPathFor sha content (pathResolve cwd p)
          = pathJoin c.cacheDir
              (computeFileHash sha content ++ '.' :: c.outputFormat.name))
    ∧ (c.cacheEnabled = false →
        c.outputPathFor sha content (pathResolve cwd p)
          = pathJoin (dirname (pathResolve cwd p))
              (basenameExt (pathResolve cwd p) (extname (pathResolve cwd p))
                ++ '.' :: c.outputFormat.name))
    ∧ (c.convert sha ffmpeg fs cwd p).calls
        = [c.commandFor (detectFormat (pathResolve cwd p)) (pathResolve cwd p)
            (c.tempPathFor sha content (pathResolve cwd p))]
    ∧ (∀ oc, ffmpeg (c.commandFor (detectFormat (pathResolve cwd p)) (pathResolve cwd p)
          (c.tempPathFor sha content (pathResolve cwd p))) = .success oc →
        (c.convert sha ffmpeg fs cwd p).result
            = .ok (c.outputPathFor sha content (pathResolve cwd p))
          ∧ fsLookup (c.convert sha ffmpeg fs cwd p).fs
              (c.outputPathFor sha content (pathResolve cwd p)) = some oc
          ∧ fsLookup (c.convert sha ffmpeg fs cwd p).fs
              (c.tempPathFor sha content (pathResolve cwd p)) = none)
    ∧ (∀ m st po, ffmpeg (c.commandFor (detectFormat (pathResolve cwd p)) (pathResolve cwd p)
          (c.tempPathFor sha content (pathResolve cwd p))) = .failure m st po →
        (c.convert sha ffmpeg fs cwd p).result
            = .fail (.conversionFailed (pathResolve cwd p) (st.getD m))
          ∧ fsLookup (c.convert sha ffmpeg fs cwd p).fs
              (c.tempPathFor sha content (pathResolve cwd p)) = none
          ∧ fsLookup (c.convert sha ffmpeg fs cwd p).fs
              (c.outputPathFor sha content (pathResolve cwd p))
            = fsLookup fs (c.outputPathFor sha content (pathResolve cwd p))
          ∧ (c.cacheEnabled = true →
              fsLookup (c.convert sha ffmpeg fs cwd p).fs
                (c.outputPathFor sha content (pathResolve cwd p)) = none)) := by
  refine ⟨rfl,
    fun hE => outputPathFor_cacheEnabled c sha content _ hE,
    fun hE => outputPathFor_cacheDisabled c sha content _ hE,
    convert_miss_calls c sha ffmpeg fs cwd p content hx hf hcache, ?_, ?_⟩
  · intro oc hrun
    rw [convert_miss_success c sha ffmpeg fs cwd p content oc hx hf hcache hrun]
    have hto := tempPathFor_ne_outputPathFor c sha content (pathResolve cwd p)
    exact ⟨rfl, successFS_lookup_out _ _ _ _, successFS_lookup_temp _ _ _ _ hto⟩
  · intro m st po hrun
    rw [convert_miss_failure c sha ffmpeg fs cwd p content m st po hx hf hcache hrun]
    have hto := tempPathFor_ne_outputPathFor c sha content (pathResolve cwd p)
    refine ⟨rfl, failureCleanupFS_lookup_temp _ _ _,
      failureCleanupFS_lookup_ne _ _ _ _ hto, ?_⟩
    intro hE
    rw [failureCleanupFS_lookup_ne _ _ _ _ hto,
      outputPathFor_cacheEnabled c sha content _ hE]
    exact getCachedPath_none_cache_file c sha fs cwd p content hE hx hcache

/-- Witness for C2 at concrete inputs: with caching enabled, a failing
encoder run on a cache miss yields `ConversionError` carrying the error
stream, no temporary file, and no file at the final cache destination. -/
theorem claim_C2_witness :
    (exConv.convert shaTest exFfmpegFail exFS (str "/") (str "/v/a.mp4")).result
      = .fail (.conversionFailed (str "/v/a.mp4") (str "Invalid data found"))
    ∧ fsLookup (exConv.convert shaTest exFfmpegFail exFS (str "/") (str "/v/a.mp4")).fs
        (str "/videos/.cache/h61.mjpeg.tmp") = none
    ∧ fsLookup (exConv.convert shaTest exFfmpegFail exFS (str "/") (str "/v/a.mp4")).fs
        (str "/videos/.cache/h61.mjpeg") = none := by
  have h := claim_C2_temp_and_failure exConv shaTest exFfmpegFail exFS (str "/")
    (str "/v/a.mp4") [1, 2, 3] (by decide) (Or.inl (by decide)) (by decide)
  have hfail := h.2.2.2.2.2 (str "ffmpeg exited with code 1")
    (some (str "Invalid data found")) none rfl
  exact ⟨hfail.1, hfail.2.1, hfail.2.2.2 rfl⟩

/-- Counterexample to C2 as stated: with caching disabled the final
destination is the sibling `/v/a.mjpeg`; when a file already exists there
and the encoder fails, the failure path only deletes the temporary file,
so a file still exists at the final destination after the failed call —
refuting "no file exists at the final destination afterwards". -/
theorem claim_C2_counterexample :
    (exConvNoCache.convert shaTest exFfmpegFail exFS2 (str "/") (str "/v/a.mp4")).result
      = .fail (.conversionFailed (str "/v/a.mp4") (str "Invalid data found"))
    ∧ exConvNoCache.outputPathFor shaTest [1] (str "/v/a.mp4") = str "/v/a.mjpeg"
    ∧ fsLookup (exConvNoCache.convert shaTest exFfmpegFail exFS2 (str "/") (str "/v/a.mp4")).fs
        (str "/v/a.mjpeg") = some [9] := by
  decide

/-- C8: on a cache miss the encoder invocation differs by class exactly as
follows — an `image`-class input executes the single `convertImage`
command and a `video`-class input the single `convertVideo` command; the
image command's fixed flag section contains the single-frame flag
`-frames:v 1` while the video command's fixed flag section does not; and
both flag sections apply the same pixel-format normalization
`-pix_fmt yuvj420p` and the fixed quality setting `-q:v 2`. -/
theorem claim_C8_class_commands (c : FormatConverter) (sha : List Nat → Str)
    (ffmpeg : Ffmpeg) (fs : FS) (cwd p : Str) (content : List Nat)
    (hx : fsLookup fs (pathResolve cwd p) = some content)
    (hcache : c.getCachedPath sha fs cwd p = none) :
    (detectFormat (pathResolve cwd p) = .image →
        (c.convert sha ffmpeg fs cwd p).calls
          = [mkImageCmd c.ffmpegPath (pathResolve cwd p)
              (c.tempPathFor sha content (pathResolve cwd p))])
    ∧ (detectFormat (pathResolve cwd p) = .video →
        (c.convert sha ffmpeg fs cwd p).calls
          = [mkVideoCmd c.ffmpegPath (pathResolve cwd p)
              (c.tempPathFor sha content (pathResolve cwd p))])
    ∧ (∀ ff i o : Str, mkImageCmd ff i o
        = quoteArg ff ++ str " -i " ++ quoteArg i ++ imageFlagSection ++ quoteArg o)
    ∧ (∀ ff i o : Str, mkVideoCmd ff i o
        = quoteArg ff ++ str " -i " ++ quoteArg i ++ videoFlagSection ++ quoteArg o)
    ∧ containsSub imageFlagSection (str "-frames:v 1") = true
    ∧ containsSub videoFlagSection (str "-frames:v 1") = false
    ∧ containsSub imageFlagSection (str "-pix_fmt yuvj420p") = true
    ∧ containsSub videoFlagSection (str "-pix_fmt yuvj420p") = true
    ∧ containsSub imageFlagSection (str "-q:v 2") = true
    ∧ containsSub videoFlagSection (str "-q:v 2") = true := by
  refine ⟨?_, ?_, fun ff i o => rfl, fun ff i o => rfl,
    by decide, by decide, by decide, by decide, by decide, by decide⟩
  · intro hf
    rw [convert_miss_calls c sha ffmpeg fs cwd p content hx (Or.inr hf) hcache, hf]
    simp [FormatConverter.commandFor]
  · intro hf
    rw [convert_miss_calls c sha ffmpeg fs cwd p content hx (Or.inl hf) hcache, hf]
    simp [FormatConverter.commandFor]

/-- Witness for C8 at concrete inputs: converting `/v/b.png` (image
class) on a cache miss executes exactly the single-frame image command. -/
theorem claim_C8_witness :
    (exConv.convert shaTest exFfmpegOk exFSAB (str "/") (str "/v/b.png")).calls
      = [mkImageCmd (str "ffmpeg") (str "/v/b.png") (str "/videos/.cache/h61.mjpeg.tmp")] :=
  (claim_C8_class_commands exConv shaTest exFfmpegOk exFSAB (str "/") (str "/v/b.png")
    [1, 2, 3] (by decide) (by decide)).1 (by decide)

/-- C9: the availability probe reports available whenever the version-flag
invocation succeeds, with the version parsed from `stdout || stderr`
possibly absent but never affecting availability; any execution failure
reports unavailable carrying the failure message; and when the default
feed needs conversion and the probe reports unavailable, `onPrepare`
raises `FfmpegNotFoundError` whose message embeds the installation
guidance selected by the fixed platform table (`darwin`/`linux`/`win32`)
with the generic fallback for any other platform. -/
theorem claim_C9_probe_and_gate (ex : Str → ExecResult) (platform : Str)
    (customPath : Option Str) (feed : Str) :
    (∀ so se, ex (quoteArg (customPath.getD (str "ffmpeg")) ++ str " -version") = .ok so se →
        checkFfmpegAvailability ex customPath
          = { available := true, path := some (customPath.getD (str "ffmpeg")),
              version := matchVersion (if so = [] then se else so), error := none })
    ∧ (∀ m, ex (quoteArg (customPath.getD (str "ffmpeg")) ++ str " -version") = .err m →
        checkFfmpegAvailability ex customPath
          = { available := false, path := none, version := none, error := some m })
    ∧ (requiresConversion feed = true →
        (checkFfmpegAvailability ex customPath).available = false →
        onPrepareFfmpegGate ex platform feed customPath
          = some ⟨str "FFmpeg is required to convert " ++ feed
              ++ str " but was not found.\n\n" ++ getInstallationInstructions platform⟩)
    ∧ (∀ instr, lookupStr installInstructionsTable platform = some instr →
        getInstallationInstructions platform = instr)
    ∧ (lookupStr installInstructionsTable platform = none →
        getInstallationInstructions platform = genericInstallInstructions) := by
  refine ⟨?_, ?_, ?_, ?_, ?_⟩
  · intro so se h
    simp only [checkFfmpegAvailability, h]
  · intro m h
    simp only [checkFfmpegAvailability, h]
  · intro h1 h2
    simp only [onPrepareFfmpegGate, h1, h2, if_true]
  · intro instr h
    simp only [getInstallationInstructions, h, Option.getD_some]
  · intro h
    simp only [getInstallationInstructions, h, Option.getD_none]

/-- Witness for C9 at concrete inputs: a succeeding probe with no
parseable version is still available with a null version; a failing probe
is unavailable; and on an unknown platform the gate raises the error with
the generic fallback guidance. -/
theorem claim_C9_witness :
    checkFfmpegAvailability exExecOkNoVersion none
      = { available := true, path := some (str "ffmpeg"), version := none, error := none }
    ∧ checkFfmpegAvailability exExecFail none
      = { available := false, path := none, version := none,
          error := some (str "spawn ffmpeg ENOENT") }
    ∧ onPrepareFfmpegGate exExecFail (str "plan9") (str "/d/feed.mp4") none
      = some ⟨str "FFmpeg is required to convert " ++ str "/d/feed.mp4"
          ++ str " but was not found.\n\n" ++ genericInstallInstructions⟩ := by
  have h1 := (claim_C9_probe_and_gate exExecOkNoVersion (str "plan9") none
    (str "/d/feed.mp4")).1 (str "banner only") [] rfl
  have h2 := (claim_C9_probe_and_gate exExecFail (str "plan9") none
    (str "/d/feed.mp4")).2.1 (str "spawn ffmpeg ENOENT") rfl
  have h3 := (claim_C9_probe_and_gate exExecFail (str "plan9") none
    (str "/d/feed.mp4")).2.2.1 (by decide) (by rw [h2])
  have h4 := (claim_C9_probe_and_gate exExecFail (str "plan9") none
    (str "/d/feed.mp4")).2.2.2.2 (by decide)
  refine ⟨?_, h2, ?_⟩
  · rw [h1]
    decide
  · rw [h3, h4]

/-- C10: with caching enabled, the cache key and cache-file path depend
only on the file content and the configured output format, not on the
source path or class: the fingerprint destination is identical for any two
absolute paths; `getCachedPath` agrees on any two existing sources with
identical bytes; and after a successful miss conversion of one convertible
source, a `convert` of a second convertible source with the same bytes
(for example under a different supported extension and class) is a pure
cache hit returning the first source's output path with zero encoder
calls. -/
theorem claim_C10_content_addressing (c : FormatConverter) (sha : List Nat → Str)
    (ffmpeg : Ffmpeg) (fs : FS) (cwd p1 p2 : Str) (content oc : List Nat)
    (hE : c.cacheEnabled = true) :
    (∀ a1 a2 : Str, c.outputPathFor sha content a1 = c.outputPathFor sha content a2)
    ∧ (∀ (fs' : FS) (cont : List Nat),
        fsLookup fs' (pathResolve cwd p1) = some cont →
        fsLookup fs' (pathResolve cwd p2) = some cont →
        c.getCachedPath sha fs' cwd p1 = c.getCachedPath sha fs' cwd p2)
    ∧ (fsLookup fs (pathResolve cwd p1) = some content →
        (detectFormat (pathResolve cwd p1) = .video
          ∨ detectFormat (pathResolve cwd p1) = .image) →
        c.getCachedPath sha fs cwd p1 = none →
        ffmpeg (c.commandFor (detectFormat (pathResolve cwd p1)) (pathResolve cwd p1)
          (c.tempPathFor sha content (pathResolve cwd p1))) = .success oc →
        fsLookup fs (pathResolve cwd p2) = some content →
        (detectFormat (pathResolve cwd p2) = .video
          ∨ detectFormat (pathResolve cwd p2) = .image) →
        c.convert sha ffmpeg (c.convert sha ffmpeg fs cwd p1).fs cwd p2
          = ⟨(c.convert sha ffmpeg fs cwd p1).fs, [],
              .ok (c.outputPathFor sha content (pathResolve cwd p1))⟩) := by
  refine ⟨?_, ?_, ?_⟩
  · intro a1 a2
    rw [outputPathFor_cacheEnabled c sha content a1 hE,
      outputPathFor_cacheEnabled c sha content a2 hE]
  · intro fs' cont h1 h2
    simp only [FormatConverter.getCachedPath, h1, h2]
  · intro hx1 hf1 hcache hrun hx2 hf2
    exact convert_after_miss_success c sha ffmpeg fs cwd p1 p2 content oc
      hE hx1 hf1 hcache hrun hx2 hf2

/-- Witness for C10 at concrete inputs: after converting `/v/a.mp4`
(video class), converting `/v/b.png` (image class, identical bytes) is a
cache hit on the same entry with zero encoder calls. -/
theorem claim_C10_witness :
    exConv.convert shaTest exFfmpegOk
        (exConv.convert shaTest exFfmpegOk exFSAB (str "/") (str "/v/a.mp4")).fs
        (str "/") (str "/v/b.png")
      = ⟨(exConv.convert shaTest exFfmpegOk exFSAB (str "/") (str "/v/a.mp4")).fs, [],
          .ok (str "/videos/.cache/h61.mjpeg")⟩ :=
  (claim_C10_content_addressing exConv shaTest exFfmpegOk exFSAB (str "/")
      (str "/v/a.mp4") (str "/v/b.png") [1, 2, 3] [7, 7] (by decide)).2.2
    (by decide) (Or.inl (by decide)) (by decide) rfl (by decide) (Or.inr (by decide))
